import Mathlib

/-!
Verification development for the rlox lexical front end.

The source text is modelled as a `List Char` and byte positions as `Nat`
indices into that list; `main.rs` rejects non-ASCII input, so byte offsets
and character indices coincide on every input the program accepts.
Rust panics (out-of-bounds string slicing, `unwrap` on `None`) are modelled
explicitly via an exception type, since `Scanner::scan`'s observable
behaviour includes aborting on such inputs.
-/

namespace Rlox

/-- Span of a lexeme or error region: byte offset and byte length
(`src/error_handling/mod.rs`, `LineInformation`). -/
structure LineInformation where
  offset : Nat
  length : Nat
deriving DecidableEq

/-- Token kinds (`src/frontend/scanner/token.rs`, `TokenType`).
The `FloatValue` payload is modelled by the lexeme text that Rust passes to
`str::parse::<f64>` (the floating-point value itself is out of scope);
`IntegerValue` carries the parsed signed 64-bit value as an `Int`. -/
inductive TokenType where
  | LeftParenthesis
  | RightParenthesis
  | LeftBrace
  | RightBrace
  | Colon
  | Comma
  | Dot
  | Minus
  | Plus
  | Semicolon
  | Slash
  | Star
  | Bang
  | BangEqual
  | Equal
  | EqualEqual
  | Greater
  | GreaterEqual
  | Less
  | LessEqual
  | Identifier (name : String)
  | StringValue (value : String)
  | FloatValue (lexeme : String)
  | IntegerValue (value : Int)
  | And
  | Bool
  | Class
  | Else
  | False
  | Float
  | Fun
  | For
  | If
  | Int
  | Nil
  | Or
  | Print
  | Return
  | String
  | Super
  | This
  | True
  | Val
  | Var
  | While
  | EOF
deriving DecidableEq

/-- A token: kind plus span (`token.rs`, `Token`). -/
structure Token where
  token_type : TokenType
  line_information : LineInformation
deriving DecidableEq

/-- A diagnostic reported through `ErrorHandler::report_error`: the message
and the span the scanner handed over.  The Rust code renders it to the log
sink immediately; the model records the reported pairs in order. -/
structure Diagnostic where
  msg : String
  li : LineInformation
deriving DecidableEq

/-- The error type `Scanner::scan` returns (`scanner/mod.rs`, `ScannerError`). -/
structure ScannerError where
  message : String
deriving DecidableEq

/-- How a scan run can end abnormally: `fail` models returning
`Err(ScannerError)`, `panicked` models a Rust panic aborting the process
(out-of-bounds slice in `CharStream::peek_n`, `unwrap` on `None`). -/
inductive ScanExc where
  | fail (e : ScannerError)
  | panicked (msg : String)
deriving DecidableEq

/-- Mutable scanner state threaded through the pass: the cursor position of
the `CharStream`, the diagnostics reported so far (the `ErrorHandler` side
channel), and the `had_error` flag. -/
structure SState where
  pos : Nat
  diags : List Diagnostic
  hadError : Bool
deriving DecidableEq

deriving instance DecidableEq for Except

/-- Convenience: the character list of a string literal. -/
def chars (s : String) : List Char := s.data

/-! ## CharStream (`src/frontend/scanner/char_stream.rs`) -/

/-- `CharStream::current_char`: the character at `position`, `none` past the
end.  The Rust guard `position > text.len()` avoids a slicing panic; slicing
at `position = len` yields the empty string, hence `none` as well. -/
def current_char (text : List Char) (position : Nat) : Option Char :=
  if position > text.length then none else (text.drop position).head?

/-- `CharStream::peek_n`: the character `n` places ahead.  The Rust body
slices `text[position + n ..]` with NO bounds guard, so `position + n`
strictly beyond the length is an out-of-bounds panic. -/
def peek_n (text : List Char) (position n : Nat) : Except String (Option Char) :=
  if position + n > text.length then
    .error "byte index out of bounds in CharStream peek_n"
  else
    .ok ((text.drop (position + n)).head?)

/-- `CharStream::matches`: consume the current character when it equals
`expected`; returns the flag and the resulting position. -/
def matchesChar (text : List Char) (position : Nat) (expected : Char) : Bool × Nat :=
  match current_char text position with
  | some c => if c = expected then (true, position + 1) else (false, position)
  | none => (false, position)

/-! ## Scanner sub-scans (`src/frontend/scanner/mod.rs`)

Each loop of the Rust scanner walks the cursor one character at a time; the
model runs each loop structurally over the remaining text
(`text.drop position`) and reports how many cursor steps were taken, which
the wrapper adds to the absolute position. -/

/-- Predicate for `matches!(c, '0'..='9')`. -/
def is_digit (c : Char) : Bool := '0' ≤ c && c ≤ '9'

/-- `Scanner::is_valid_id_start`: `matches!(c, 'a'..='z' | 'A'..='Z' | '_')`. -/
def is_valid_id_start (c : Char) : Bool :=
  ('a' ≤ c && c ≤ 'z') || ('A' ≤ c && c ≤ 'Z') || c = '_'

/-- `Scanner::is_valid_id_char`. -/
def is_valid_id_char (c : Char) : Bool := is_valid_id_start c || is_digit c

/-- The whitespace match arm `' ' | '\r' | '\t' | '\n'` of `next_token`. -/
def is_whitespace (c : Char) : Bool := c = ' ' || c = '\r' || c = '\t' || c = '\n'

/-- Digit-run collection inside `process_number`: the maximal digit prefix of
the remaining text together with what is left after it. -/
def collectDigits : List Char → List Char × List Char
  | [] => ([], [])
  | c :: rs =>
    if is_digit c then
      let (ds, r) := collectDigits rs
      (c :: ds, r)
    else
      ([], c :: rs)

/-- Identifier-run collection inside `process_identifier`. -/
def collectIdChars : List Char → List Char × List Char
  | [] => ([], [])
  | c :: rs =>
    if is_valid_id_char c then
      let (ds, r) := collectIdChars rs
      (c :: ds, r)
    else
      ([], c :: rs)

/-- Loop body of `Scanner::process_comment`: consume through the next
newline, or through the end.  When `next()` returns `None` the cursor has
still moved one step past the end (`CharStream::next` increments
unconditionally), hence the `1` in the base case. -/
def process_comment_loop : List Char → Nat
  | [] => 1
  | c :: rs => if c = '\n' then 1 else 1 + process_comment_loop rs

/-- `Scanner::process_comment`: absolute position after discarding a `//`
comment starting at `position` (the character after the two slashes is NOT
yet consumed; the first `next()` eats the second slash's successor). -/
def process_comment (text : List Char) (position : Nat) : Nat :=
  position + process_comment_loop (text.drop position)

/-- Loop body of `Scanner::process_multiline_comment`: steps taken and
whether a closing `*/` was found.  After consuming a `*`, the Rust code
inspects `current_char()` — the head of the remaining text — for `/`.  On
exhaustion the `next()`/`revert()` pair cancels, so the base case consumes
nothing net. -/
def process_multiline_comment_loop : List Char → Nat × Bool
  | [] => (0, false)
  | c1 :: rs =>
    if c1 = '*' then
      if rs.head? = some '/' then
        (2, true)
      else
        let r := process_multiline_comment_loop rs
        (r.1 + 1, r.2)
    else
      let r := process_multiline_comment_loop rs
      (r.1 + 1, r.2)

/-- `Scanner::process_multiline_comment` from an absolute position (just
after the opening `/*`): final position and whether the comment was closed. -/
def process_multiline_comment (text : List Char) (position : Nat) : Nat × Bool :=
  let r := process_multiline_comment_loop (text.drop position)
  (position + r.1, r.2)

/-- Loop body of `Scanner::process_string`: the collected contents (`none`
when the closing quote is missing) and the steps taken.  On exhaustion the
Rust code calls `next()` then `revert()`, a net zero movement. -/
def process_string_loop : List Char → List Char → Option (List Char) × Nat
  | [], _ => (none, 0)
  | c :: rs, acc =>
    if c = '"' then
      (some acc, 1)
    else
      let r := process_string_loop rs (acc ++ [c])
      (r.1, r.2 + 1)

/-- `Scanner::process_string` from the position just after the opening
quote: contents (if terminated) and the final absolute position. -/
def process_string (text : List Char) (position : Nat) : Option (List Char) × Nat :=
  let r := process_string_loop (text.drop position) []
  (r.1, position + r.2)

/-- `Scanner::number_is_float`: two-character lookahead.  Evaluating
`peek()` panics when `position + 1` exceeds the text length (no bounds guard
in `peek_n`), which happens exactly when a digit run ends at the very end of
the input. -/
def number_is_float (text : List Char) (position : Nat) : Except String Bool :=
  match peek_n text position 1 with
  | .error m => .error m
  | .ok r2 =>
    match current_char text position, r2 with
    | some c1, some c2 => .ok (c1 = '.' && is_digit c2)
    | _, _ => .ok false

/-- The largest `i64` value, `9223372036854775807`. -/
def i64Max : Nat := 9223372036854775807

/-- Numeric value of a digit string. -/
def digitsToNat (ds : List Char) : Nat :=
  ds.foldl (fun acc c => 10 * acc + (c.toNat - '0'.toNat)) 0

/-- Modelled std behaviour: `str::parse::<i64>` on the digit-only,
non-empty strings `process_number` builds for the integer case — it
succeeds exactly when the value fits into a signed 64-bit integer. -/
def rustParseI64 (ds : List Char) : Option Int :=
  if digitsToNat ds ≤ i64Max then some (Int.ofNat (digitsToNat ds)) else none

/-- Outcome of a number sub-scan. -/
inductive NumOut where
  | tok (t : TokenType)
  | err (msg : String)
  | panicked (msg : String)
deriving DecidableEq

/-- `Scanner::parse_int`: an integer token on success, otherwise the
`Cannot parse integer …` diagnostic message (no token). -/
def parse_int (number : List Char) : NumOut :=
  match rustParseI64 number with
  | some n => .tok (.IntegerValue n)
  | none => .err ("Cannot parse integer " ++ String.mk number)

/-- `Scanner::parse_float`: `str::parse::<f64>` never fails on the
`digits.digits` strings built here, so a float token is always produced,
modelled as carrying its lexeme. -/
def parse_float (number : List Char) : NumOut :=
  .tok (.FloatValue (String.mk number))

/-- `Scanner::process_number` from the position just after the leading
digit `start`: outcome and final absolute position. -/
def process_number (text : List Char) (start : Char) (position : Nat) : NumOut × Nat :=
  let ds := (collectDigits (text.drop position)).1
  let p2 := position + ds.length
  match number_is_float text p2 with
  | .error m => (.panicked m, p2)
  | .ok true =>
    match current_char text p2 with
    | some c1 =>
      let ds2 := (collectDigits (text.drop (p2 + 1))).1
      (parse_float (start :: ds ++ c1 :: ds2), p2 + 1 + ds2.length)
    | none => (.panicked "unwrap on None in process_number", p2)
  | .ok false => (parse_int (start :: ds), p2)

/-- The static `KEYWORDS` table (`scanner/mod.rs`): text to token kind. -/
def keywords : List (String × TokenType) :=
  [("and", .And),
   ("bool", .Bool),
   ("class", .Class),
   ("else", .Else),
   ("false", .False),
   ("float", .Float),
   ("fun", .Fun),
   ("for", .For),
   ("if", .If),
   ("int", .Int),
   ("nil", .Nil),
   ("or", .Or),
   ("print", .Print),
   ("return", .Return),
   ("string", .String),
   ("super", .Super),
   ("this", .This),
   ("true", .True),
   ("val", .Val),
   ("var", .Var),
   ("while", .While)]

/-- `Scanner::process_identifier` from the position just after the leading
character `start`: the emitted token kind (keyword on table hit, identifier
otherwise) and the final absolute position. -/
def process_identifier (text : List Char) (start : Char) (position : Nat) :
    TokenType × Nat :=
  let cs := (collectIdChars (text.drop position)).1
  let identifier := String.mk (start :: cs)
  let tt :=
    match keywords.lookup identifier with
    | none => .Identifier identifier
    | some t => t
  (tt, position + cs.length)

/-- `Scanner::get_line_information`: span from the recorded token start to
the current cursor position. -/
def get_line_information (token_start : Nat) (st : SState) : LineInformation :=
  ⟨token_start, st.pos - token_start⟩

/-- `Scanner::process_error`: report the diagnostic with the current span
and set `had_error`. -/
def process_error (msg : String) (token_start : Nat) (st : SState) : SState :=
  { st with
    diags := st.diags ++ [⟨msg, get_line_information token_start st⟩],
    hadError := true }

/-- `Scanner::create_token`: `Ok(Some(token))` with the current span. -/
def create_token (tt : TokenType) (token_start : Nat) (st : SState) :
    Except ScanExc (Option Token) × SState :=
  (.ok (some ⟨tt, get_line_information token_start st⟩), st)

/-- Body of `Scanner::next_token` once the leading character `c` has been
consumed: the dispatch, in the order of the Rust `match` arms.  The token
start is the position `c` was consumed from, i.e. `st.pos`. -/
def next_token_char (text : List Char) (st : SState) (c : Char) :
    Except ScanExc (Option Token) × SState :=
  if c = '(' then create_token .LeftParenthesis st.pos { st with pos := st.pos + 1 }
    else if c = ')' then create_token .RightParenthesis st.pos { st with pos := st.pos + 1 }
    else if c = '{' then create_token .LeftBrace st.pos { st with pos := st.pos + 1 }
    else if c = '}' then create_token .RightBrace st.pos { st with pos := st.pos + 1 }
    else if c = ':' then create_token .Colon st.pos { st with pos := st.pos + 1 }
    else if c = ',' then create_token .Comma st.pos { st with pos := st.pos + 1 }
    else if c = '.' then create_token .Dot st.pos { st with pos := st.pos + 1 }
    else if c = '-' then create_token .Minus st.pos { st with pos := st.pos + 1 }
    else if c = '+' then create_token .Plus st.pos { st with pos := st.pos + 1 }
    else if c = ';' then create_token .Semicolon st.pos { st with pos := st.pos + 1 }
    else if c = '*' then create_token .Star st.pos { st with pos := st.pos + 1 }
    else if c = '/' then
      match current_char text (st.pos + 1) with
      | none => create_token .Slash st.pos { st with pos := st.pos + 1 }
      | some x =>
        if x = '/' then
          (.ok none, { st with pos := process_comment text (st.pos + 1) })
        else if x = '*' then
          if (process_multiline_comment text (st.pos + 1 + 1)).2 then
            (.ok none, { st with pos := (process_multiline_comment text (st.pos + 1 + 1)).1 })
          else
            (.ok none,
             process_error "Unterminated multiline comment." st.pos
               { st with pos := (process_multiline_comment text (st.pos + 1 + 1)).1 })
        else create_token .Slash st.pos { st with pos := st.pos + 1 }
    else if c = '!' then
      create_token (if (matchesChar text (st.pos + 1) '=').1 then .BangEqual else .Bang)
        st.pos { st with pos := (matchesChar text (st.pos + 1) '=').2 }
    else if c = '=' then
      create_token (if (matchesChar text (st.pos + 1) '=').1 then .EqualEqual else .Equal)
        st.pos { st with pos := (matchesChar text (st.pos + 1) '=').2 }
    else if c = '>' then
      create_token (if (matchesChar text (st.pos + 1) '=').1 then .GreaterEqual else .Greater)
        st.pos { st with pos := (matchesChar text (st.pos + 1) '=').2 }
    else if c = '<' then
      create_token (if (matchesChar text (st.pos + 1) '=').1 then .LessEqual else .Less)
        st.pos { st with pos := (matchesChar text (st.pos + 1) '=').2 }
    else if is_whitespace c then
      (.ok none, { st with pos := st.pos + 1 })
    else if c = '"' then
      match (process_string text (st.pos + 1)).1 with
      | some s =>
        create_token (.StringValue (String.mk s)) st.pos
          { st with pos := (process_string text (st.pos + 1)).2 }
      | none =>
        (.ok none, process_error "Unterminated string." st.pos
          { st with pos := (process_string text (st.pos + 1)).2 })
    else if is_digit c then
      match (process_number text c (st.pos + 1)).1 with
      | .tok tt => create_token tt st.pos { st with pos := (process_number text c (st.pos + 1)).2 }
      | .err m =>
        (.ok none, process_error m st.pos { st with pos := (process_number text c (st.pos + 1)).2 })
      | .panicked m =>
        (.error (.panicked m), { st with pos := (process_number text c (st.pos + 1)).2 })
    else if is_valid_id_start c then
      create_token (process_identifier text c (st.pos + 1)).1 st.pos
        { st with pos := (process_identifier text c (st.pos + 1)).2 }
    else
      (.ok none,
       process_error ("Unexpected character '" ++ String.mk [c] ++ "'.") st.pos
         { st with pos := st.pos + 1 })

/-- `Scanner::next_token`: record the token start, consume the leading
character (`None` here is the defensive `Critical` error) and dispatch on it
via `next_token_char`. -/
def next_token (text : List Char) (st : SState) :
    Except ScanExc (Option Token) × SState :=
  match current_char text st.pos with
  | none =>
    (.error (.fail ⟨"Critical: Scanner could not read next character at position "
        ++ toString (st.pos + 1) ++ "."⟩),
     { st with pos := st.pos + 1 })
  | some c => next_token_char text st c

/-- The `while !is_exhausted` loop of `Scanner::scan`.  The `fuel` argument
only bounds the recursion; each iteration advances the cursor by at least
one, so `text.length + 1` units always suffice (`scanLoop_fuel_irrelevant`
below certifies that the chosen fuel reproduces the unbounded loop). -/
def scanLoop (text : List Char) (fuel : Nat) (st : SState) (tokens : List Token) :
    Except ScanExc (List Token) × SState :=
  match fuel with
  | 0 => (.ok tokens, st)
  | fuel + 1 =>
    if st.pos < text.length then
      match next_token text st with
      | (.error e, st') => (.error e, st')
      | (.ok none, st') => scanLoop text fuel st' tokens
      | (.ok (some t), st') => scanLoop text fuel st' (tokens ++ [t])
    else
      (.ok tokens, st)

/-- Initial scanner state (`had_error = false`, cursor reset to 0). -/
def initState : SState := ⟨0, [], false⟩

/-- The token-collecting pass of `Scanner::scan`: loop result and final
state (positions, reported diagnostics, `had_error`). -/
def scanPass (text : List Char) : Except ScanExc (List Token) × SState :=
  scanLoop text (text.length + 1) initState []

/-- `Scanner::scan` (and the crate-level `scan` wrapper): append the `EOF`
token at the final cursor position, then fail in aggregate when any lexical
error was reported during the pass. -/
def scan (text : List Char) : Except ScanExc (List Token) :=
  match scanPass text with
  | (.error e, _) => .error e
  | (.ok tokens, st) =>
    let result := tokens ++ [⟨.EOF, ⟨st.pos, 0⟩⟩]
    if st.hadError then .error (.fail ⟨"Error scanning file."⟩) else .ok result

/-- The diagnostics reported to the `ErrorHandler` during the pass. -/
def scanDiags (text : List Char) : List Diagnostic := (scanPass text).2.diags

/-- The `had_error` flag after the pass. -/
def scanHadError (text : List Char) : Bool := (scanPass text).2.hadError

/-- The cursor position after the pass (where the `EOF` span is placed). -/
def scanFinalPos (text : List Char) : Nat := (scanPass text).2.pos

/-- The tokens collected by the loop (before the `EOF` is appended and
before the `had_error` check possibly discards them). -/
def scanPassTokens (text : List Char) : List Token :=
  match (scanPass text).1 with
  | .ok tokens => tokens
  | .error _ => []

example :
    scan (chars "!= == <= >=") =
      .ok [⟨.BangEqual, ⟨0, 2⟩⟩, ⟨.EqualEqual, ⟨3, 2⟩⟩, ⟨.LessEqual, ⟨6, 2⟩⟩,
        ⟨.GreaterEqual, ⟨9, 2⟩⟩, ⟨.EOF, ⟨11, 0⟩⟩] := by decide

example :
    scan (chars "class MyClass if x") =
      .ok [⟨.Class, ⟨0, 5⟩⟩, ⟨.Identifier "MyClass", ⟨6, 7⟩⟩, ⟨.If, ⟨14, 2⟩⟩,
        ⟨.Identifier "x", ⟨17, 1⟩⟩, ⟨.EOF, ⟨18, 0⟩⟩] := by decide

example :
    scan (chars "\"hello\" \"123\"") =
      .ok [⟨.StringValue "hello", ⟨0, 7⟩⟩, ⟨.StringValue "123", ⟨8, 5⟩⟩,
        ⟨.EOF, ⟨13, 0⟩⟩] := by decide

example :
    scan (chars "123 45.67 0 -987.65 ") =
      .ok [⟨.IntegerValue 123, ⟨0, 3⟩⟩, ⟨.FloatValue "45.67", ⟨4, 5⟩⟩,
        ⟨.IntegerValue 0, ⟨10, 1⟩⟩, ⟨.Minus, ⟨12, 1⟩⟩, ⟨.FloatValue "987.65", ⟨13, 6⟩⟩,
        ⟨.EOF, ⟨20, 0⟩⟩] := by decide

example : scan (chars "/* a comment\n second line */ x ") =
    .ok [⟨.Identifier "x", ⟨29, 1⟩⟩, ⟨.EOF, ⟨31, 0⟩⟩] := by decide

example : scan (chars "// only a comment\n") = .ok [⟨.EOF, ⟨18, 0⟩⟩] := by decide

example : scan (chars "//") = .ok [⟨.EOF, ⟨3, 0⟩⟩] := by decide

example : scan (chars "123") = .error (.panicked "byte index out of bounds in CharStream peek_n") := by decide

example :
    scanDiags (chars "$ %") =
      [⟨"Unexpected character '$'.", ⟨0, 1⟩⟩, ⟨"Unexpected character '%'.", ⟨2, 1⟩⟩] := by
  decide

example : scan (chars "\"unterminated string") = .error (.fail ⟨"Error scanning file."⟩) := by decide

example : scanDiags (chars "\"unterminated string") = [⟨"Unterminated string.", ⟨0, 20⟩⟩] := by decide

/-! ## ErrorHandler (`src/error_handling/mod.rs`) -/

/-- A run of `n` spaces. -/
def spaces (n : Nat) : String := String.mk (List.replicate n ' ')

/-- A run of `n` carets. -/
def carets (n : Nat) : String := String.mk (List.replicate n '^')

/-- The line number computed by `ErrorHandler::get_error_message`: count of
newline characters in `code[..=offset]` — an INCLUSIVE slice, so a newline
sitting exactly at `offset` is counted too — plus one.  (The Rust slice
panics when `offset ≥ len`; rendering presupposes `offset < len`.) -/
def line_number (code : List Char) (offset : Nat) : Nat :=
  ((code.take (offset + 1)).filter (fun c => c = '\n')).length + 1

/-- Recursion worker for `checked_ilog10`: the first argument is structural
fuel, always called with at least the number of digits available. -/
def ilog10_aux : Nat → Nat → Nat
  | 0, _ => 0
  | fuel + 1, n => if n < 10 then 0 else ilog10_aux fuel (n / 10) + 1

/-- `line.checked_ilog10().unwrap_or(0)`: floor of log10 for positive
arguments, and 0 for 0 (the `None` of `checked_ilog10` mapped by
`unwrap_or(0)`). -/
def checked_ilog10_or0 (n : Nat) : Nat := ilog10_aux n n

/-- The gutter width used by `ErrorHandler::get_error_message`. -/
def indentation (line : Nat) : Nat := checked_ilog10_or0 line + 3

/-- Worker for the number of decimal digits. -/
def numDigits_aux : Nat → Nat → Nat
  | 0, _ => 1
  | fuel + 1, n => if n < 10 then 1 else numDigits_aux fuel (n / 10) + 1

/-- Number of decimal digits in the displayed (base-10) rendering of `n`. -/
def numDigits (n : Nat) : Nat := numDigits_aux n n

/-- First loop of `ErrorHandler::get_line_content_and_column_offset`: the
running `left` boundary; the loop breaks at `idx = offset` BEFORE examining
the character there. -/
def left_boundary_loop : List Char → Nat → Nat → Nat → Nat
  | [], _, _, left => left
  | c :: rest, idx, offset, left =>
    if idx = offset then left
    else left_boundary_loop rest (idx + 1) offset (if c = '\n' then idx + 1 else left)

/-- Left boundary of the line containing `offset`. -/
def left_boundary (code : List Char) (offset : Nat) : Nat :=
  left_boundary_loop code 0 offset 0

/-- Second loop: index of the first newline at or after `offset`. -/
def right_boundary_loop : List Char → Nat → Option Nat
  | [], _ => none
  | c :: rest, k => if c = '\n' then some k else right_boundary_loop rest (k + 1)

/-- Right boundary of the line containing `offset` (`code.len()` when no
further newline exists). -/
def right_boundary (code : List Char) (offset : Nat) : Nat :=
  match right_boundary_loop (code.drop offset) 0 with
  | some idx => offset + idx
  | none => code.length

/-- `ErrorHandler::get_line_content_and_column_offset`: the containing
line's text, the in-line column of `offset`, and the line's right
boundary. -/
def get_line_content_and_column_offset (code : List Char) (offset : Nat) :
    List Char × Nat × Nat :=
  let left := left_boundary code offset
  let right := right_boundary code offset
  ((code.take right).drop left, offset - left, right)

/-- `ErrorHandler::get_error_message`: the rendered diagnostic text. -/
def get_error_message (code : List Char) (error_msg : String) (li : LineInformation) :
    String :=
  let line := line_number code li.offset
  let ind := indentation line
  let (code_line, column_offset, column_end) :=
    get_line_content_and_column_offset code li.offset
  let max_marker_length := min li.length (column_end - li.offset)
  let result := error_msg ++ "\n"
    ++ spaces ind ++ "|\n"
    ++ " " ++ toString line ++ " | " ++ String.mk code_line ++ "\n"
    ++ spaces ind ++ "| " ++ spaces column_offset ++ carets max_marker_length ++ "\n"
  if max_marker_length < li.length then
    result ++ spaces ind ++ "| --> Error continues in next line.\n"
  else
    result

/-- `ErrorHandler::report_error`: the leading `assert!` demands
`code.len() >= offset + length`; `none` models the assertion failure,
`some` the rendered message handed to the log sink. -/
def report_error (code : List Char) (error_msg : String) (li : LineInformation) :
    Option String :=
  if code.length ≥ li.offset + li.length then
    some (get_error_message code error_msg li)
  else
    none

/-- The source buffer of the repository's `error_handling` unit tests. -/
def testInput : List Char :=
  chars "fn my_function() -> usize \x7b\n    10 + 10\n\x7d  // A function"

example :
    get_error_message testInput "An error occurred." ⟨0, 2⟩ =
      "An error occurred.\n   |\n 1 | fn my_function() -> usize \x7b\n   | ^^\n" := by
  decide

example :
    get_error_message testInput "An error occurred." ⟨3, 13⟩ =
      "An error occurred.\n   |\n 1 | fn my_function() -> usize \x7b\n   |    ^^^^^^^^^^^^^\n" := by
  decide

example :
    get_error_message testInput "An error occurred." ⟨28, 4⟩ =
      "An error occurred.\n   |\n 2 |     10 + 10\n   | ^^^^\n" := by
  decide

example :
    get_error_message testInput "An error occurred." ⟨35, 1⟩ =
      "An error occurred.\n   |\n 2 |     10 + 10\n   |        ^\n" := by
  decide

example :
    get_error_message testInput "An error occurred." ⟨43, 2⟩ =
      "An error occurred.\n   |\n 3 | \x7d  // A function\n   |    ^^\n" := by
  decide

example :
    get_error_message testInput "An error occurred." ⟨48, 8⟩ =
      "An error occurred.\n   |\n 3 | \x7d  // A function\n   |         ^^^^^^^^\n" := by
  decide

example :
    get_error_message testInput "An error occurred." ⟨37, 3⟩ =
      "An error occurred.\n   |\n 2 |     10 + 10\n   |          ^^\n   | --> Error continues in next line.\n" := by
  decide

/-! ## Basic lemmas about the cursor and the loop workers -/

theorem current_char_eq_get? (text : List Char) (p : Nat) :
    current_char text p = text.get? p := by
  unfold current_char
  split
  · exact (List.get?_eq_none.mpr (by omega)).symm
  · rw [← List.get?_zero, List.get?_drop, Nat.add_zero]

theorem current_char_eq_some_iff (text : List Char) (p : Nat) :
    (∃ c, current_char text p = some c) ↔ p < text.length := by
  rw [current_char_eq_get?]
  constructor
  · rintro ⟨c, hc⟩
    exact List.get?_eq_some.mp hc |>.1
  · intro h
    exact ⟨text.get ⟨p, h⟩, List.get?_eq_get h⟩

theorem collectDigits_append (l : List Char) :
    (collectDigits l).1 ++ (collectDigits l).2 = l := by
  induction l with
  | nil => rfl
  | cons c rs ih =>
    unfold collectDigits
    split
    · simpa using ih
    · rfl

theorem collectDigits_length_le (l : List Char) :
    (collectDigits l).1.length ≤ l.length := by
  conv_rhs => rw [← collectDigits_append l]
  simp

theorem collectIdChars_append (l : List Char) :
    (collectIdChars l).1 ++ (collectIdChars l).2 = l := by
  induction l with
  | nil => rfl
  | cons c rs ih =>
    unfold collectIdChars
    split
    · simpa using ih
    · rfl

theorem collectIdChars_length_le (l : List Char) :
    (collectIdChars l).1.length ≤ l.length := by
  conv_rhs => rw [← collectIdChars_append l]
  simp

theorem collectIdChars_all (l : List Char) (h : ∀ c ∈ l, is_valid_id_char c = true) :
    collectIdChars l = (l, []) := by
  induction l with
  | nil => rfl
  | cons c rs ih =>
    unfold collectIdChars
    rw [if_pos (h c (by simp)), ih (fun x hx => h x (by simp [hx]))]

theorem process_comment_loop_le (l : List Char) :
    process_comment_loop l ≤ l.length + 1 := by
  induction l with
  | nil => simp [process_comment_loop]
  | cons c rs ih =>
    unfold process_comment_loop
    split
    · simp
    · simp only [List.length_cons]
      omega

theorem process_multiline_comment_loop_le (l : List Char) :
    (process_multiline_comment_loop l).1 ≤ l.length := by
  induction l with
  | nil => simp [process_multiline_comment_loop]
  | cons c rs ih =>
    unfold process_multiline_comment_loop
    split
    · split
      · rename_i hh
        cases rs <;> simp_all
      · show (process_multiline_comment_loop rs).1 + 1 ≤ (c :: rs).length
        simp only [List.length_cons]
        omega
    · show (process_multiline_comment_loop rs).1 + 1 ≤ (c :: rs).length
      simp only [List.length_cons]
      omega

theorem process_multiline_comment_loop_unterminated (l : List Char)
    (h : (process_multiline_comment_loop l).2 = false) :
    (process_multiline_comment_loop l).1 = l.length := by
  induction l with
  | nil => simp [process_multiline_comment_loop]
  | cons c rs ih =>
    unfold process_multiline_comment_loop at h ⊢
    by_cases hc : c = '*'
    · rw [if_pos hc] at h ⊢
      by_cases hh : rs.head? = some '/'
      · rw [if_pos hh] at h
        simp at h
      · rw [if_neg hh] at h ⊢
        change (process_multiline_comment_loop rs).2 = false at h
        show (process_multiline_comment_loop rs).1 + 1 = (c :: rs).length
        simp only [List.length_cons]
        rw [ih h]
    · rw [if_neg hc] at h ⊢
      change (process_multiline_comment_loop rs).2 = false at h
      show (process_multiline_comment_loop rs).1 + 1 = (c :: rs).length
      simp only [List.length_cons]
      rw [ih h]

theorem process_string_loop_le (l acc : List Char) :
    (process_string_loop l acc).2 ≤ l.length := by
  induction l generalizing acc with
  | nil => simp [process_string_loop]
  | cons c rs ih =>
    unfold process_string_loop
    split
    · simp
    · show (process_string_loop rs (acc ++ [c])).2 + 1 ≤ (c :: rs).length
      simp only [List.length_cons]
      have := ih (acc ++ [c])
      omega

theorem process_string_loop_unterminated (l : List Char) (acc : List Char)
    (h : ∀ c ∈ l, c ≠ '"') :
    process_string_loop l acc = (none, l.length) := by
  induction l generalizing acc with
  | nil => rfl
  | cons c rs ih =>
    unfold process_string_loop
    rw [if_neg (h c (by simp))]
    rw [ih (acc ++ [c]) (fun x hx => h x (by simp [hx]))]
    rfl

theorem process_string_loop_none (l acc : List Char)
    (h : (process_string_loop l acc).1 = none) :
    (process_string_loop l acc).2 = l.length := by
  induction l generalizing acc with
  | nil => simp [process_string_loop]
  | cons c rs ih =>
    unfold process_string_loop at h ⊢
    by_cases hc : c = '"'
    · rw [if_pos hc] at h
      simp at h
    · rw [if_neg hc] at h ⊢
      change (process_string_loop rs (acc ++ [c])).1 = none at h
      show (process_string_loop rs (acc ++ [c])).2 + 1 = (c :: rs).length
      simp only [List.length_cons]
      rw [ih (acc ++ [c]) h]

theorem process_number_le (text : List Char) (c : Char) (p : Nat)
    (hp : p ≤ text.length) : (process_number text c p).2 ≤ text.length := by
  unfold process_number
  have hds : (collectDigits (text.drop p)).1.length ≤ text.length - p := by
    simpa using collectDigits_length_le (text.drop p)
  simp only
  split
  · omega
  · split
    · rename_i c1 heq
      have hlt : p + (collectDigits (text.drop p)).1.length < text.length := by
        have := (current_char_eq_some_iff text (p + (collectDigits (text.drop p)).1.length)).mp
          ⟨c1, heq⟩
        omega
      have hds2 : (collectDigits (text.drop (p + (collectDigits (text.drop p)).1.length + 1))).1.length
          ≤ text.length - (p + (collectDigits (text.drop p)).1.length + 1) := by
        simpa using collectDigits_length_le
          (text.drop (p + (collectDigits (text.drop p)).1.length + 1))
      simp only
      omega
    · omega
  · omega

theorem process_identifier_le (text : List Char) (c : Char) (p : Nat)
    (hp : p ≤ text.length) : (process_identifier text c p).2 ≤ text.length := by
  unfold process_identifier
  have := collectIdChars_length_le (text.drop p)
  simp only [List.length_drop] at this
  simp only
  omega

theorem process_string_le (text : List Char) (p : Nat) (hp : p ≤ text.length) :
    (process_string text p).2 ≤ text.length := by
  unfold process_string
  have := process_string_loop_le (text.drop p) []
  simp only [List.length_drop] at this
  simp only
  omega

theorem process_multiline_comment_le (text : List Char) (p : Nat)
    (hp : p ≤ text.length) : (process_multiline_comment text p).1 ≤ text.length := by
  unfold process_multiline_comment
  have := process_multiline_comment_loop_le (text.drop p)
  simp only [List.length_drop] at this
  simp only
  omega

theorem process_comment_loop_ge_one (l : List Char) : 1 ≤ process_comment_loop l := by
  cases l with
  | nil => simp [process_comment_loop]
  | cons c rs =>
    unfold process_comment_loop
    split
    · simp
    · show 1 ≤ 1 + process_comment_loop rs
      omega

theorem process_comment_gt (text : List Char) (p : Nat) :
    p < process_comment text p := by
  unfold process_comment
  have := process_comment_loop_ge_one (text.drop p)
  omega

theorem process_comment_le (text : List Char) (p : Nat) (hp : p ≤ text.length) :
    process_comment text p ≤ text.length + 1 := by
  unfold process_comment
  have := process_comment_loop_le (text.drop p)
  simp only [List.length_drop] at this
  omega

theorem process_multiline_comment_ge (text : List Char) (p : Nat) :
    p ≤ (process_multiline_comment text p).1 := by
  unfold process_multiline_comment
  simp

theorem process_string_ge (text : List Char) (p : Nat) :
    p ≤ (process_string text p).2 := by
  unfold process_string
  simp

theorem process_number_ge (text : List Char) (c : Char) (p : Nat) :
    p ≤ (process_number text c p).2 := by
  unfold process_number
  simp only
  split
  · omega
  · split
    · simp only
      omega
    · omega
  · omega

theorem process_identifier_ge (text : List Char) (c : Char) (p : Nat) :
    p ≤ (process_identifier text c p).2 := by
  unfold process_identifier
  simp only
  omega

theorem matchesChar_ge (text : List Char) (p : Nat) (e : Char) :
    p ≤ (matchesChar text p e).2 := by
  unfold matchesChar
  split
  · split <;> simp
  · simp

/-! ## The per-step specification of `next_token` -/

/-- What one `next_token` step guarantees whenever the loop guard held:
the cursor strictly advances; the diagnostics list only grows, by spans
within the buffer; `had_error` is set exactly when a diagnostic was just
reported; and the only abnormal result is a modelled Rust panic (the
defensive `Critical` error is unreachable under the guard). -/
def NextSpec (text : List Char) (st : SState)
    (out : Except ScanExc (Option Token) × SState) : Prop :=
  st.pos < out.2.pos ∧
  ∃ δ, out.2.diags = st.diags ++ δ ∧
    out.2.hadError = (st.hadError || !δ.isEmpty) ∧
    (∀ d ∈ δ, d.li.offset + d.li.length ≤ text.length) ∧
    (∀ e, out.1 = .error e → ∃ m, e = .panicked m)

theorem nextSpec_no_diag (text : List Char) (st : SState)
    (r : Except ScanExc (Option Token)) (p : Nat) (hp : st.pos < p)
    (hr : ∀ e, r = .error e → ∃ m, e = .panicked m) :
    NextSpec text st (r, { st with pos := p }) :=
  ⟨hp, [], by simp, by simp, by simp, hr⟩

theorem nextSpec_err (text : List Char) (st : SState) (msg : String) (p : Nat)
    (hp : st.pos < p) (hlen : p ≤ text.length) :
    NextSpec text st (.ok none, process_error msg st.pos { st with pos := p }) := by
  refine ⟨hp, [⟨msg, ⟨st.pos, p - st.pos⟩⟩], rfl, by simp [process_error], ?_, by simp⟩
  intro d hd
  simp only [List.mem_singleton] at hd
  subst hd
  simp only
  omega

theorem next_token_char_spec (text : List Char) (st : SState) (c : Char)
    (hlt : st.pos < text.length) :
    NextSpec text st (next_token_char text st c) := by
  unfold next_token_char
  by_cases h1 : c = '('
  · rw [if_pos h1]; exact nextSpec_no_diag text st _ _ (by omega) (by simp)
  rw [if_neg h1]
  by_cases h2 : c = ')'
  · rw [if_pos h2]; exact nextSpec_no_diag text st _ _ (by omega) (by simp)
  rw [if_neg h2]
  by_cases h3 : c = '{'
  · rw [if_pos h3]; exact nextSpec_no_diag text st _ _ (by omega) (by simp)
  rw [if_neg h3]
  by_cases h4 : c = '}'
  · rw [if_pos h4]; exact nextSpec_no_diag text st _ _ (by omega) (by simp)
  rw [if_neg h4]
  by_cases h5 : c = ':'
  · rw [if_pos h5]; exact nextSpec_no_diag text st _ _ (by omega) (by simp)
  rw [if_neg h5]
  by_cases h6 : c = ','
  · rw [if_pos h6]; exact nextSpec_no_diag text st _ _ (by omega) (by simp)
  rw [if_neg h6]
  by_cases h7 : c = '.'
  · rw [if_pos h7]; exact nextSpec_no_diag text st _ _ (by omega) (by simp)
  rw [if_neg h7]
  by_cases h8 : c = '-'
  · rw [if_pos h8]; exact nextSpec_no_diag text st _ _ (by omega) (by simp)
  rw [if_neg h8]
  by_cases h9 : c = '+'
  · rw [if_pos h9]; exact nextSpec_no_diag text st _ _ (by omega) (by simp)
  rw [if_neg h9]
  by_cases h10 : c = ';'
  · rw [if_pos h10]; exact nextSpec_no_diag text st _ _ (by omega) (by simp)
  rw [if_neg h10]
  by_cases h11 : c = '*'
  · rw [if_pos h11]; exact nextSpec_no_diag text st _ _ (by omega) (by simp)
  rw [if_neg h11]
  by_cases h12 : c = '/'
  · rw [if_pos h12]
    rcases hcc : current_char text (st.pos + 1) with _ | x
    · exact nextSpec_no_diag text st _ _ (by omega) (by simp)
    · simp only []
      have hx1 : st.pos + 1 < text.length :=
        (current_char_eq_some_iff text (st.pos + 1)).mp ⟨x, hcc⟩
      by_cases hs1 : x = '/'
      · rw [if_pos hs1]
        exact nextSpec_no_diag text st _ _
          (by have := process_comment_gt text (st.pos + 1); omega) (by simp)
      rw [if_neg hs1]
      by_cases hs2 : x = '*'
      · rw [if_pos hs2]
        by_cases hmc : (process_multiline_comment text (st.pos + 1 + 1)).2 = true
        · rw [if_pos hmc]
          exact nextSpec_no_diag text st _ _
            (by have := process_multiline_comment_ge text (st.pos + 1 + 1); omega)
            (by simp)
        · rw [if_neg hmc]
          exact nextSpec_err text st _ _
            (by have := process_multiline_comment_ge text (st.pos + 1 + 1); omega)
            (process_multiline_comment_le text (st.pos + 1 + 1) (by omega))
      · rw [if_neg hs2]
        exact nextSpec_no_diag text st _ _ (by omega) (by simp)
  rw [if_neg h12]
  by_cases h13 : c = '!'
  · rw [if_pos h13]
    exact nextSpec_no_diag text st _ _
      (by have := matchesChar_ge text (st.pos + 1) '='; omega) (by simp)
  rw [if_neg h13]
  by_cases h14 : c = '='
  · rw [if_pos h14]
    exact nextSpec_no_diag text st _ _
      (by have := matchesChar_ge text (st.pos + 1) '='; omega) (by simp)
  rw [if_neg h14]
  by_cases h15 : c = '>'
  · rw [if_pos h15]
    exact nextSpec_no_diag text st _ _
      (by have := matchesChar_ge text (st.pos + 1) '='; omega) (by simp)
  rw [if_neg h15]
  by_cases h16 : c = '<'
  · rw [if_pos h16]
    exact nextSpec_no_diag text st _ _
      (by have := matchesChar_ge text (st.pos + 1) '='; omega) (by simp)
  rw [if_neg h16]
  by_cases h17 : is_whitespace c = true
  · rw [if_pos h17]
    exact nextSpec_no_diag text st _ _ (by omega) (by simp)
  rw [if_neg h17]
  by_cases h18 : c = '"'
  · rw [if_pos h18]
    rcases hps : (process_string text (st.pos + 1)).1 with _ | s
    · exact nextSpec_err text st _ _
        (by have := process_string_ge text (st.pos + 1); omega)
        (process_string_le text (st.pos + 1) (by omega))
    · exact nextSpec_no_diag text st _ _
        (by have := process_string_ge text (st.pos + 1); omega) (by simp)
  rw [if_neg h18]
  by_cases h19 : is_digit c = true
  · rw [if_pos h19]
    rcases hpn : (process_number text c (st.pos + 1)).1 with t | m | m
    · exact nextSpec_no_diag text st _ _
        (by have := process_number_ge text c (st.pos + 1); omega) (by simp)
    · exact nextSpec_err text st _ _
        (by have := process_number_ge text c (st.pos + 1); omega)
        (process_number_le text c (st.pos + 1) (by omega))
    · exact nextSpec_no_diag text st _ _
        (by have := process_number_ge text c (st.pos + 1); omega)
        (fun e he => by injection he with h; exact ⟨m, h.symm⟩)
  rw [if_neg h19]
  by_cases h20 : is_valid_id_start c = true
  · rw [if_pos h20]
    exact nextSpec_no_diag text st _ _
      (by have := process_identifier_ge text c (st.pos + 1); omega) (by simp)
  · rw [if_neg h20]
    exact nextSpec_err text st _ _ (by omega) (by omega)

theorem next_token_spec (text : List Char) (st : SState)
    (hlt : st.pos < text.length) :
    NextSpec text st (next_token text st) := by
  obtain ⟨c, hc⟩ := (current_char_eq_some_iff text st.pos).mpr hlt
  unfold next_token
  rw [hc]
  exact next_token_char_spec text st c hlt

theorem scanLoop_zero (text : List Char) (st : SState) (tokens : List Token) :
    scanLoop text 0 st tokens = (.ok tokens, st) := rfl

theorem scanLoop_succ (text : List Char) (fuel : Nat) (st : SState) (tokens : List Token) :
    scanLoop text (fuel + 1) st tokens =
      if st.pos < text.length then
        match next_token text st with
        | (.error e, st') => (.error e, st')
        | (.ok none, st') => scanLoop text fuel st' tokens
        | (.ok (some t), st') => scanLoop text fuel st' (tokens ++ [t])
      else
        (.ok tokens, st) := by
  conv_lhs => rw [scanLoop.eq_def]

/-! ## Invariants of the scan loop -/

theorem isEmpty_append_bool (a b : List Diagnostic) :
    (a ++ b).isEmpty = (a.isEmpty && b.isEmpty) := by
  cases a <;> simp

/-- Accumulated effect of the scan loop on the scanner state, for any fuel:
diagnostics only grow, by spans inside the buffer; `had_error` is set
exactly when the pass reported something; the loop result is abnormal only
through a modelled panic; and the cursor never moves backwards. -/
theorem scanLoop_spec (text : List Char) (fuel : Nat) :
    ∀ (st : SState) (tokens : List Token),
      ∃ δ, (scanLoop text fuel st tokens).2.diags = st.diags ++ δ ∧
        (scanLoop text fuel st tokens).2.hadError = (st.hadError || !δ.isEmpty) ∧
        (∀ d ∈ δ, d.li.offset + d.li.length ≤ text.length) ∧
        (∀ e, (scanLoop text fuel st tokens).1 = .error e → ∃ m, e = .panicked m) ∧
        st.pos ≤ (scanLoop text fuel st tokens).2.pos := by
  induction fuel with
  | zero =>
    intro st tokens
    exact ⟨[], by simp [scanLoop], by simp [scanLoop], by simp, by simp [scanLoop], by
      simp [scanLoop]⟩
  | succ fuel ih =>
    intro st tokens
    by_cases hg : st.pos < text.length
    · have spec := next_token_spec text st hg
      rcases hnt : next_token text st with ⟨r, st'⟩
      rw [hnt] at spec
      obtain ⟨hpos, δ₁, hd1, he1, hb1, hr1⟩ := spec
      cases r with
      | error e =>
        have hstep : scanLoop text (fuel + 1) st tokens = (.error e, st') := by
          rw [scanLoop_succ, if_pos hg, hnt]
        rw [hstep]
        exact ⟨δ₁, hd1, he1, hb1,
          fun e0 he0 => by injection he0 with h; exact h ▸ hr1 e rfl,
          le_of_lt hpos⟩
      | ok opt =>
        cases opt with
        | none =>
          have hstep : scanLoop text (fuel + 1) st tokens = scanLoop text fuel st' tokens := by
            rw [scanLoop_succ, if_pos hg, hnt]
          rw [hstep]
          obtain ⟨δ₂, hd2, he2, hb2, hr2, hp2⟩ := ih st' tokens
          refine ⟨δ₁ ++ δ₂, ?_, ?_, ?_, hr2, le_trans (le_of_lt hpos) hp2⟩
          · rw [hd2, hd1, List.append_assoc]
          · rw [he2, he1, isEmpty_append_bool]
            cases st.hadError <;> cases δ₁.isEmpty <;> cases δ₂.isEmpty <;> rfl
          · intro d hd
            rcases List.mem_append.mp hd with h | h
            · exact hb1 d h
            · exact hb2 d h
        | some t =>
          have hstep : scanLoop text (fuel + 1) st tokens =
              scanLoop text fuel st' (tokens ++ [t]) := by
            rw [scanLoop_succ, if_pos hg, hnt]
          rw [hstep]
          obtain ⟨δ₂, hd2, he2, hb2, hr2, hp2⟩ := ih st' (tokens ++ [t])
          refine ⟨δ₁ ++ δ₂, ?_, ?_, ?_, hr2, le_trans (le_of_lt hpos) hp2⟩
          · rw [hd2, hd1, List.append_assoc]
          · rw [he2, he1, isEmpty_append_bool]
            cases st.hadError <;> cases δ₁.isEmpty <;> cases δ₂.isEmpty <;> rfl
          · intro d hd
            rcases List.mem_append.mp hd with h | h
            · exact hb1 d h
            · exact hb2 d h
    · have hstep : scanLoop text (fuel + 1) st tokens = (.ok tokens, st) := by
        rw [scanLoop_succ, if_neg hg]
      rw [hstep]
      exact ⟨[], by simp, by simp, by simp, by simp, le_refl _⟩

/-- With fuel exceeding the remaining distance, a normally terminating loop
run ends with the cursor at or past the end of the buffer: the pass is
complete, it is never cut short by an error. -/
theorem scanLoop_complete (text : List Char) (fuel : Nat) :
    ∀ (st : SState) (tokens : List Token), text.length < fuel + st.pos →
      ∀ toks, (scanLoop text fuel st tokens).1 = .ok toks →
        text.length ≤ (scanLoop text fuel st tokens).2.pos := by
  induction fuel with
  | zero =>
    intro st tokens hfuel toks _
    simp only [scanLoop]
    omega
  | succ fuel ih =>
    intro st tokens hfuel toks hok
    by_cases hg : st.pos < text.length
    · have spec := next_token_spec text st hg
      rcases hnt : next_token text st with ⟨r, st'⟩
      rw [hnt] at spec
      obtain ⟨hpos, -⟩ := spec
      replace hpos : st.pos < st'.pos := hpos
      cases r with
      | error e =>
        have hstep : scanLoop text (fuel + 1) st tokens = (.error e, st') := by
          rw [scanLoop_succ, if_pos hg, hnt]
        rw [hstep] at hok
        cases hok
      | ok opt =>
        cases opt with
        | none =>
          have hstep : scanLoop text (fuel + 1) st tokens = scanLoop text fuel st' tokens := by
            rw [scanLoop_succ, if_pos hg, hnt]
          rw [hstep] at hok ⊢
          exact ih st' tokens (by omega) toks hok
        | some t =>
          have hstep : scanLoop text (fuel + 1) st tokens =
              scanLoop text fuel st' (tokens ++ [t]) := by
            rw [scanLoop_succ, if_pos hg, hnt]
          rw [hstep] at hok ⊢
          exact ih st' (tokens ++ [t]) (by omega) toks hok
    · have hstep : scanLoop text (fuel + 1) st tokens = (.ok tokens, st) := by
        rw [scanLoop_succ, if_neg hg]
      rw [hstep]
      simp only
      omega

/-- Any two fuel amounts exceeding the remaining distance produce the same
run: the fuel `text.length + 1` used by `scanPass` reproduces the unbounded
Rust loop. -/
theorem scanLoop_fuel_irrelevant (text : List Char) :
    ∀ (f₁ f₂ : Nat) (st : SState) (tokens : List Token),
      text.length - st.pos < f₁ → text.length - st.pos < f₂ →
      scanLoop text f₁ st tokens = scanLoop text f₂ st tokens := by
  intro f₁
  induction f₁ with
  | zero => omega
  | succ f₁ ih =>
    intro f₂ st tokens h₁ h₂
    cases f₂ with
    | zero => omega
    | succ f₂ =>
      by_cases hg : st.pos < text.length
      · have spec := next_token_spec text st hg
        rcases hnt : next_token text st with ⟨r, st'⟩
        rw [hnt] at spec
        obtain ⟨hpos, -⟩ := spec
        replace hpos : st.pos < st'.pos := hpos
        cases r with
        | error e =>
          have hstep1 : scanLoop text (f₁ + 1) st tokens = (.error e, st') := by
            rw [scanLoop_succ, if_pos hg, hnt]
          have hstep2 : scanLoop text (f₂ + 1) st tokens = (.error e, st') := by
            rw [scanLoop_succ, if_pos hg, hnt]
          rw [hstep1, hstep2]
        | ok opt =>
          cases opt with
          | none =>
            have hstep1 : scanLoop text (f₁ + 1) st tokens = scanLoop text f₁ st' tokens := by
              rw [scanLoop_succ, if_pos hg, hnt]
            have hstep2 : scanLoop text (f₂ + 1) st tokens = scanLoop text f₂ st' tokens := by
              rw [scanLoop_succ, if_pos hg, hnt]
            rw [hstep1, hstep2]
            exact ih f₂ st' tokens (by omega) (by omega)
          | some t =>
            have hstep1 : scanLoop text (f₁ + 1) st tokens =
                scanLoop text f₁ st' (tokens ++ [t]) := by
              rw [scanLoop_succ, if_pos hg, hnt]
            have hstep2 : scanLoop text (f₂ + 1) st tokens =
                scanLoop text f₂ st' (tokens ++ [t]) := by
              rw [scanLoop_succ, if_pos hg, hnt]
            rw [hstep1, hstep2]
            exact ih f₂ st' (tokens ++ [t]) (by omega) (by omega)
      · have hstep1 : scanLoop text (f₁ + 1) st tokens = (.ok tokens, st) := by
          rw [scanLoop_succ, if_neg hg]
        have hstep2 : scanLoop text (f₂ + 1) st tokens = (.ok tokens, st) := by
          rw [scanLoop_succ, if_neg hg]
        rw [hstep1, hstep2]

/-! ## Pass-level corollaries -/

theorem scanDiags_bounded (text : List Char) :
    ∀ d ∈ scanDiags text, d.li.offset + d.li.length ≤ text.length := by
  obtain ⟨δ, hd, -, hb, -, -⟩ := scanLoop_spec text (text.length + 1) initState []
  intro d hmem
  unfold scanDiags scanPass at hmem
  rw [hd] at hmem
  exact hb d (by simpa [initState] using hmem)

theorem scanHadError_iff (text : List Char) :
    scanHadError text = !(scanDiags text).isEmpty := by
  obtain ⟨δ, hd, he, -, -, -⟩ := scanLoop_spec text (text.length + 1) initState []
  unfold scanHadError scanDiags scanPass
  rw [hd, he]
  simp [initState]

theorem scanPass_no_fail (text : List Char) :
    ∀ e, (scanPass text).1 = .error e → ∃ m, e = .panicked m := by
  obtain ⟨δ, -, -, -, hr, -⟩ := scanLoop_spec text (text.length + 1) initState []
  exact hr

theorem scanPass_complete (text : List Char) :
    ∀ toks, (scanPass text).1 = .ok toks → text.length ≤ scanFinalPos text := by
  intro toks h
  unfold scanFinalPos
  exact scanLoop_complete text (text.length + 1) initState [] (by simp [initState]) toks h

/-! ## Identifier character facts -/

theorem id_start_ne (c : Char) (h : is_valid_id_start c = true) (x : Char)
    (hx : is_valid_id_start x = false) : c ≠ x := by
  intro he
  subst he
  rw [h] at hx
  cases hx

theorem id_start_not_digit (c : Char) (h : is_valid_id_start c = true) :
    is_digit c = false := by
  have h' : ('a' ≤ c ∧ c ≤ 'z' ∨ 'A' ≤ c ∧ c ≤ 'Z') ∨ c = '_' := by
    simpa [is_valid_id_start] using h
  rw [Bool.eq_false_iff]
  intro hd
  have hd' : '0' ≤ c ∧ c ≤ '9' := by simpa [is_digit] using hd
  rcases h' with (⟨ha, -⟩ | ⟨ha, -⟩) | hu
  · exact absurd (le_trans ha hd'.2) (by decide)
  · exact absurd (le_trans ha hd'.2) (by decide)
  · subst hu
    exact absurd hd'.2 (by decide)

theorem id_start_not_whitespace (c : Char) (h : is_valid_id_start c = true) :
    is_whitespace c = false := by
  have h1 := id_start_ne c h ' ' (by decide)
  have h2 := id_start_ne c h '\r' (by decide)
  have h3 := id_start_ne c h '\t' (by decide)
  have h4 := id_start_ne c h '\n' (by decide)
  simp [is_whitespace, h1, h2, h3, h4]

/-! ## Digit-count and line-number facts -/

theorem numDigits_aux_eq_ilog10_aux (fuel : Nat) :
    ∀ n, numDigits_aux fuel n = ilog10_aux fuel n + 1 := by
  induction fuel with
  | zero => intro n; rfl
  | succ fuel ih =>
    intro n
    unfold numDigits_aux ilog10_aux
    split
    · rfl
    · rw [ih (n / 10)]

theorem indentation_eq_numDigits (line : Nat) :
    indentation line = numDigits line + 2 := by
  unfold indentation checked_ilog10_or0 numDigits
  rw [numDigits_aux_eq_ilog10_aux line line]

theorem line_number_not_newline (code : List Char) (offset : Nat)
    (hlt : offset < code.length) (hne : code.get? offset ≠ some '\n') :
    line_number code offset =
      ((code.take offset).filter (fun c => c = '\n')).length + 1 := by
  obtain ⟨ch, hch⟩ : ∃ ch, code.get? offset = some ch :=
    ⟨code.get ⟨offset, hlt⟩, List.get?_eq_get hlt⟩
  have hchn : ch ≠ '\n' := fun h => hne (h ▸ hch)
  unfold line_number
  rw [List.take_succ]
  have hch2 : code[offset]? = some ch := by
    rw [← List.get?_eq_getElem?]
    exact hch
  rw [hch2]
  simp [List.filter_append, hchn]

/-- Scanning an input that is one identifier word (a valid start character
followed by identifier characters only) yields exactly one token — the
keyword-table hit, or an identifier carrying the text — spanning the whole
input, followed by `EOF`. -/
theorem scan_identifier_word (c : Char) (cs : List Char)
    (h1 : is_valid_id_start c = true) (h2 : ∀ x ∈ cs, is_valid_id_char x = true) :
    scan (c :: cs) =
      .ok [⟨(match keywords.lookup (String.mk (c :: cs)) with
             | none => .Identifier (String.mk (c :: cs))
             | some t => t), ⟨0, cs.length + 1⟩⟩,
           ⟨.EOF, ⟨cs.length + 1, 0⟩⟩] := by
  have hcc0 : current_char (c :: cs) initState.pos = some c := by
    simp [initState, current_char]
  have hpi : process_identifier (c :: cs) c 1 =
      ((match keywords.lookup (String.mk (c :: cs)) with
        | none => .Identifier (String.mk (c :: cs))
        | some t => t), 1 + cs.length) := by
    unfold process_identifier
    have hd1 : (c :: cs).drop 1 = cs := rfl
    rw [hd1, collectIdChars_all cs h2]
  have hnt : next_token (c :: cs) initState =
      (.ok (some ⟨(match keywords.lookup (String.mk (c :: cs)) with
             | none => .Identifier (String.mk (c :: cs))
             | some t => t), ⟨0, 1 + cs.length - 0⟩⟩),
       ⟨1 + cs.length, [], false⟩) := by
    unfold next_token
    rw [hcc0]
    show next_token_char (c :: cs) initState c = _
    unfold next_token_char
    rw [if_neg (id_start_ne c h1 '(' (by decide)),
        if_neg (id_start_ne c h1 ')' (by decide)),
        if_neg (id_start_ne c h1 '{' (by decide)),
        if_neg (id_start_ne c h1 '}' (by decide)),
        if_neg (id_start_ne c h1 ':' (by decide)),
        if_neg (id_start_ne c h1 ',' (by decide)),
        if_neg (id_start_ne c h1 '.' (by decide)),
        if_neg (id_start_ne c h1 '-' (by decide)),
        if_neg (id_start_ne c h1 '+' (by decide)),
        if_neg (id_start_ne c h1 ';' (by decide)),
        if_neg (id_start_ne c h1 '*' (by decide)),
        if_neg (id_start_ne c h1 '/' (by decide)),
        if_neg (id_start_ne c h1 '!' (by decide)),
        if_neg (id_start_ne c h1 '=' (by decide)),
        if_neg (id_start_ne c h1 '>' (by decide)),
        if_neg (id_start_ne c h1 '<' (by decide))]
    rw [if_neg (by simp [id_start_not_whitespace c h1])]
    rw [if_neg (id_start_ne c h1 '"' (by decide))]
    rw [if_neg (by simp [id_start_not_digit c h1])]
    rw [if_pos h1]
    show create_token (process_identifier (c :: cs) c 1).1 0
        ⟨(process_identifier (c :: cs) c 1).2, [], false⟩ = _
    rw [hpi]
    rfl
  have hl1 : scanLoop (c :: cs) (cs.length + 1 + 1) initState [] =
      scanLoop (c :: cs) (cs.length + 1) ⟨1 + cs.length, [], false⟩
        [⟨(match keywords.lookup (String.mk (c :: cs)) with
           | none => .Identifier (String.mk (c :: cs))
           | some t => t), ⟨0, 1 + cs.length - 0⟩⟩] := by
    rw [scanLoop_succ, if_pos (by simp [initState]), hnt]
    rfl
  have hl2 : scanLoop (c :: cs) (cs.length + 1) ⟨1 + cs.length, [], false⟩
      [⟨(match keywords.lookup (String.mk (c :: cs)) with
         | none => .Identifier (String.mk (c :: cs))
         | some t => t), ⟨0, 1 + cs.length - 0⟩⟩] =
      (.ok [⟨(match keywords.lookup (String.mk (c :: cs)) with
         | none => .Identifier (String.mk (c :: cs))
         | some t => t), ⟨0, 1 + cs.length - 0⟩⟩],
       ⟨1 + cs.length, [], false⟩) := by
    rw [scanLoop_succ, if_neg (by simp; omega)]
  unfold scan scanPass
  rw [show (c :: cs).length = cs.length + 1 from by simp]
  rw [hl1, hl2]
  rw [show 1 + cs.length = cs.length + 1 from Nat.add_comm 1 cs.length]
  rfl

/-! ## Claim theorems -/

/-- Claim C1, counterexample: on input `$x` one lexical error is reported
and the well-formed token `x` IS found by the continuing pass (it sits in
the internal sequence), yet `scan`'s result is only the aggregate error
carrying the message string — the tokens are NOT made available in the
result, contradicting the claim as stated. -/
theorem claim_C1_counterexample :
    scan (chars "$x") = .error (.fail ⟨"Error scanning file."⟩) ∧
    scanPassTokens (chars "$x") = [⟨.Identifier "x", ⟨1, 1⟩⟩] ∧
    scanDiags (chars "$x") = [⟨"Unexpected character '$'.", ⟨0, 1⟩⟩] :=
  ⟨by decide, by decide, by decide⟩

/-- Claim C1 (amended): when the scan loop completes without panicking (the
hypothesis; an input such as `$ 123`, whose final digit run ends at the end
of the input, aborts in `CharStream::peek_n` before `scan` returns, even
though its errors were already reported), scanning continues to the very
end of the input regardless of errors, every error encountered is reported
(for instance the two invalid characters of `$ %` both produce
diagnostics), and later well-formed tokens are still collected internally —
but if at least one error occurred the call returns only the aggregate
`Error scanning file.` failure, not the token sequence. -/
theorem claim_C1_amended (text : List Char)
    (h : ∃ toks, (scanPass text).1 = Except.ok toks) :
    text.length ≤ scanFinalPos text ∧
    (scanDiags text ≠ [] → scan text = .error (.fail ⟨"Error scanning file."⟩)) ∧
    (scanDiags (chars "$ %")).length = 2 := by
  obtain ⟨toks, htoks⟩ := h
  refine ⟨scanPass_complete text toks htoks, ?_, by decide⟩
  intro hne
  have hiff := scanHadError_iff text
  unfold scanHadError at hiff
  rcases hsp : scanPass text with ⟨r, st⟩
  rw [hsp] at htoks hiff
  replace htoks : r = Except.ok toks := htoks
  subst htoks
  replace hiff : st.hadError = !(scanDiags text).isEmpty := hiff
  have hhe : st.hadError = true := by
    rw [hiff]
    cases hd : scanDiags text with
    | nil => exact absurd hd hne
    | cons a l => rfl
  unfold scan
  rw [hsp]
  show (if st.hadError then Except.error (ScanExc.fail ⟨"Error scanning file."⟩)
      else Except.ok (toks ++ [⟨TokenType.EOF, ⟨st.pos, 0⟩⟩])) = _
  rw [if_pos hhe]

/-- Claim C1, witness: the amended theorem applied to the erroneous input
`$`, whose pass exits normally. -/
theorem claim_C1_witness :
    (∃ toks, (scanPass (chars "$")).1 = Except.ok toks) ∧
    ((chars "$").length ≤ scanFinalPos (chars "$") ∧
     (scanDiags (chars "$") ≠ [] →
       scan (chars "$") = .error (.fail ⟨"Error scanning file."⟩)) ∧
     (scanDiags (chars "$ %")).length = 2) := by
  have h : ∃ toks, (scanPass (chars "$")).1 = Except.ok toks := ⟨[], by decide⟩
  exact ⟨h, claim_C1_amended (chars "$") h⟩

/-- Claim C2, counterexample: on input `123` zero lexical errors are
reported, yet `scan` does not return the token sequence as a success value —
it aborts with the modelled out-of-bounds panic from `CharStream::peek_n`,
contradicting the claim as stated for every input. -/
theorem claim_C2_counterexample :
    scanDiags (chars "123") = [] ∧
    scan (chars "123") =
      .error (.panicked "byte index out of bounds in CharStream peek_n") :=
  ⟨by decide, by decide⟩

/-- Claim C2 (amended): for every input whose pass exits the loop normally
(i.e. does not hit the `peek_n` out-of-bounds panic), `scan` returns the
aggregate `Error scanning file.` failure if and only if at least one
lexical error was reported during the pass, and with zero lexical errors it
returns the collected token sequence (terminated by `EOF` at the final
cursor position) as a success value.  The failure signal is produced only
after the full pass: the `had_error` check sits after the loop. -/
theorem claim_C2_amended (text : List Char)
    (h : ∃ toks, (scanPass text).1 = Except.ok toks) :
    (scan text = .error (.fail ⟨"Error scanning file."⟩) ↔ scanDiags text ≠ []) ∧
    (scanDiags text = [] →
      scan text = .ok (scanPassTokens text ++ [⟨.EOF, ⟨scanFinalPos text, 0⟩⟩])) := by
  obtain ⟨toks, htoks⟩ := h
  have hiff := scanHadError_iff text
  unfold scanHadError at hiff
  rcases hsp : scanPass text with ⟨r, st⟩
  rw [hsp] at htoks hiff
  replace htoks : r = Except.ok toks := htoks
  subst htoks
  replace hiff : st.hadError = !(scanDiags text).isEmpty := hiff
  have hscan : scan text = (if st.hadError then Except.error (.fail ⟨"Error scanning file."⟩)
      else Except.ok (toks ++ [⟨.EOF, ⟨st.pos, 0⟩⟩])) := by
    unfold scan
    rw [hsp]
  have hfp : scanFinalPos text = st.pos := by
    unfold scanFinalPos
    rw [hsp]
  have hpt : scanPassTokens text = toks := by
    unfold scanPassTokens
    rw [hsp]
  constructor
  · constructor
    · intro herr hdnil
      rw [hscan, hiff, hdnil] at herr
      simp at herr
    · intro hdne
      have hempty : (scanDiags text).isEmpty = false := by
        cases hd : scanDiags text with
        | nil => exact absurd hd hdne
        | cons a l => rfl
      rw [hscan, hiff, hempty]
      rfl
  · intro hdnil
    rw [hscan, hiff, hdnil, hpt, hfp]
    rfl

/-- Claim C2, witness: the amended theorem applied to the clean input `x`. -/
theorem claim_C2_witness :
    (∃ toks, (scanPass (chars "x")).1 = Except.ok toks) ∧
    ((scan (chars "x") = .error (.fail ⟨"Error scanning file."⟩) ↔
        scanDiags (chars "x") ≠ []) ∧
     (scanDiags (chars "x") = [] →
       scan (chars "x") =
         .ok (scanPassTokens (chars "x") ++ [⟨.EOF, ⟨scanFinalPos (chars "x"), 0⟩⟩]))) := by
  have h : ∃ toks, (scanPass (chars "x")).1 = Except.ok toks :=
    ⟨[⟨.Identifier "x", ⟨0, 1⟩⟩], by decide⟩
  exact ⟨h, claim_C2_amended (chars "x") h⟩

/-- Claim C3, code bug: on the two-character input `//` a line comment runs
to end of input, `CharStream::next` still advances past the end, nothing
reverts the cursor, and the appended `EndOfFile` token carries offset 3 —
beyond `len(source) = 2` — instead of the final buffer offset the claim
(and the spec's span invariant) demands.  On ordinary inputs such as `a`
the `EndOfFile` offset does equal `len(source)`. -/
theorem claim_C3_eval :
    scan (chars "//") = .ok [⟨.EOF, ⟨3, 0⟩⟩] ∧
    (chars "//").length = 2 ∧
    scan (chars "a") = .ok [⟨.Identifier "a", ⟨0, 1⟩⟩, ⟨.EOF, ⟨1, 0⟩⟩] :=
  ⟨by decide, by decide, by decide⟩

/-- Claim C4, code bug: the same trailing-line-comment slip violates the
span invariant `offset + length <= len(source)` for the `EndOfFile` token:
on input `//x` (length 3) the produced `EndOfFile` span has offset 4. -/
theorem claim_C4_eval :
    scan (chars "//x") = .ok [⟨.EOF, ⟨4, 0⟩⟩] ∧
    ¬(4 + 0 ≤ (chars "//x").length) :=
  ⟨by decide, by decide⟩

/-- Claim C5, counterexample: the keyword table does not have 19 entries. -/
theorem claim_C5_counterexample : keywords.length ≠ 19 := by decide

/-- Claim C5 (amended): the fixed keyword table consulted by the identifier
sub-scan contains exactly 21 entries, matched by exact text, and an
identifier word whose full text hits the table is emitted as the matching
keyword token, otherwise as an identifier token carrying the text. -/
theorem claim_C5_amended :
    keywords.length = 21 ∧
    ∀ (c : Char) (cs : List Char), is_valid_id_start c = true →
      (∀ x ∈ cs, is_valid_id_char x = true) →
      scan (c :: cs) =
        .ok [⟨(match keywords.lookup (String.mk (c :: cs)) with
               | none => .Identifier (String.mk (c :: cs))
               | some t => t), ⟨0, cs.length + 1⟩⟩,
             ⟨.EOF, ⟨cs.length + 1, 0⟩⟩] :=
  ⟨by decide, scan_identifier_word⟩

/-- Claim C5, witness: the word `class` is a table hit and scans to the
`Class` keyword token; the table has 21 entries. -/
theorem claim_C5_witness :
    keywords.length = 21 ∧
    scan (chars "class") = .ok [⟨.Class, ⟨0, 5⟩⟩, ⟨.EOF, ⟨5, 0⟩⟩] := by
  constructor
  · exact claim_C5_amended.1
  · have hx : chars "class" = 'c' :: chars "lass" := by decide
    have h := claim_C5_amended.2 'c' (chars "lass") (by decide) (by decide)
    rw [hx, h]
    decide

/-- Claim C6: a string literal whose opening quote is never closed consumes
the rest of the input and yields no token, the cursor stops at the end of
the buffer (`process_string_loop` returns `none` with the full remaining
length), and on the spec's own input `"unterminated string` the scan fails
with exactly one `Unterminated string.` diagnostic and an empty token
sequence. -/
theorem claim_C6 :
    (∀ (l acc : List Char), (∀ ch ∈ l, ch ≠ '"') →
      process_string_loop l acc = (none, l.length)) ∧
    scan (chars "\"unterminated string") = .error (.fail ⟨"Error scanning file."⟩) ∧
    scanDiags (chars "\"unterminated string") = [⟨"Unterminated string.", ⟨0, 20⟩⟩] ∧
    scanPassTokens (chars "\"unterminated string") = [] :=
  ⟨process_string_loop_unterminated, by decide, by decide, by decide⟩

/-- Claim C6, witness: the universal conjunct applied to a concrete
quote-free remainder. -/
theorem claim_C6_witness : process_string_loop (chars "abc") [] = (none, 3) := by
  have h := claim_C6.1 (chars "abc") [] (by decide)
  exact h.trans (by decide)

/-- Claim C7, code bug: a maximal digit run NOT followed by `.`+digit is
parsed as a 64-bit signed integer and emitted with its exact value (`123 `,
and the two-character lookahead correctly leaves a trailing `.` alone in
`7.`), and an overflowing run yields the `Cannot parse integer …`
diagnostic and no token — but when the digit run ends exactly at the end of
the input (`123`), evaluating the lookahead panics in `CharStream::peek_n`
(string-slice index out of bounds), so no integer token is ever emitted
there, contradicting the claim. -/
theorem claim_C7_eval :
    scan (chars "123") =
      .error (.panicked "byte index out of bounds in CharStream peek_n") ∧
    scanDiags (chars "123") = [] ∧
    scan (chars "123 ") = .ok [⟨.IntegerValue 123, ⟨0, 3⟩⟩, ⟨.EOF, ⟨4, 0⟩⟩] ∧
    scan (chars "7.") = .ok [⟨.IntegerValue 7, ⟨0, 1⟩⟩, ⟨.Dot, ⟨1, 1⟩⟩, ⟨.EOF, ⟨2, 0⟩⟩] ∧
    scanDiags (chars "99999999999999999999 ") =
      [⟨"Cannot parse integer 99999999999999999999", ⟨0, 20⟩⟩] ∧
    scanPassTokens (chars "99999999999999999999 ") = [] ∧
    scan (chars "99999999999999999999 ") = .error (.fail ⟨"Error scanning file."⟩) :=
  ⟨by decide, by decide, by decide, by decide, by decide, by decide, by decide⟩

/-- Claim C8, counterexample: when `span.offset` points at a newline
character, the inclusive slice `code[..=offset]` counts that newline too,
so the rendered line number is the strictly-before count plus two, not plus
one: with source `a\nb` and offset 1, the message shows line 2 while the
claimed formula gives 1. -/
theorem claim_C8_counterexample :
    get_error_message (chars "a\nb") "msg" ⟨1, 1⟩ =
      "msg\n   |\n 2 | a\n   |  \n   | --> Error continues in next line.\n" ∧
    line_number (chars "a\nb") 1 = 2 ∧
    (((chars "a\nb").take 1).filter (fun ch => ch = '\n')).length + 1 = 1 :=
  ⟨by decide, by decide, by decide⟩

/-- Claim C8 (amended): for every offset inside the buffer whose character
is not itself a newline, the rendered 1-based line number equals the count
of newline characters strictly before the offset, plus one (when the
character at the offset IS a newline, the inclusive slice counts it too). -/
theorem claim_C8_amended (code : List Char) (offset : Nat)
    (hlt : offset < code.length) (hne : code.get? offset ≠ some '\n') :
    line_number code offset =
      ((code.take offset).filter (fun ch => ch = '\n')).length + 1 :=
  line_number_not_newline code offset hlt hne

/-- Claim C8, witness: the amended theorem at source `a\nb`, offset 2. -/
theorem claim_C8_witness :
    2 < (chars "a\nb").length ∧ (chars "a\nb").get? 2 ≠ some '\n' ∧
    line_number (chars "a\nb") 2 =
      (((chars "a\nb").take 2).filter (fun ch => ch = '\n')).length + 1 :=
  ⟨by decide, by decide, claim_C8_amended (chars "a\nb") 2 (by decide) (by decide)⟩

/-- Claim C9, counterexample: the gutter is `checked_ilog10(line) + 3` =
digits + 2, not digits + 3 (line 1 renders with a 3-space gutter, and
line 10 would get 4, ruling out a `max(3, digits)` reading as well). -/
theorem claim_C9_counterexample :
    get_error_message testInput "An error occurred." ⟨0, 2⟩ =
      "An error occurred.\n   |\n 1 | fn my_function() -> usize \x7b\n   | ^^\n" ∧
    indentation 1 = 3 ∧ numDigits 1 = 1 ∧ indentation 1 ≠ numDigits 1 + 3 ∧
    indentation 10 = 4 ∧ numDigits 10 = 2 :=
  ⟨by decide, by decide, by decide, by decide, by decide, by decide⟩

/-- Claim C9 (amended): for every displayed line number, the gutter width
equals the number of its decimal digits plus two (equivalently
`floor(log10(line)) + 3`), uniformly used for the blank, text and marker
rows of the rendered diagnostic. -/
theorem claim_C9_amended (line : Nat) : indentation line = numDigits line + 2 :=
  indentation_eq_numDigits line

/-- Claim C10: every diagnostic the scanner reports during any pass carries
a span with `offset + length <= len(source)`, so the bounds assertion at
the top of `ErrorHandler::report_error` never fails when driven by the
scanner and the diagnostic is always rendered. -/
theorem claim_C10 (text : List Char) (d : Diagnostic) (hd : d ∈ scanDiags text) :
    d.li.offset + d.li.length ≤ text.length ∧
    report_error text d.msg d.li = some (get_error_message text d.msg d.li) := by
  have hb := scanDiags_bounded text d hd
  refine ⟨hb, ?_⟩
  unfold report_error
  rw [if_pos (by omega)]

/-- Claim C10, witness: the diagnostic reported on input `$`. -/
theorem claim_C10_witness :
    (⟨"Unexpected character '$'.", ⟨0, 1⟩⟩ : Diagnostic) ∈ scanDiags (chars "$") ∧
    (0 + 1 ≤ (chars "$").length ∧
     report_error (chars "$") "Unexpected character '$'." ⟨0, 1⟩ =
       some (get_error_message (chars "$") "Unexpected character '$'." ⟨0, 1⟩)) := by
  have hm : (⟨"Unexpected character '$'.", ⟨0, 1⟩⟩ : Diagnostic) ∈ scanDiags (chars "$") := by
    decide
  exact ⟨hm, claim_C10 (chars "$") _ hm⟩

end Rlox
